import Mathlib

/-!
Shallow embedding of the startup bootstrap of the TON Desktop Wallet
(`SourceFiles/core/launcher.cpp`): working-directory resolution,
the writability probe, command-line argument filtering and parsing.

Filesystem state is modelled explicitly: directory and file existence are
characteristic functions `String → Bool`, and the success of `QDir::mkpath`
and of `QFile::open(QIODevice::WriteOnly)` at a given path is part of the
state, since it depends on permissions the code never inspects directly.
Compile-time platform and build configuration (`Q_OS_MAC`, `Q_OS_LINUX`,
`OS_WIN_STORE`, `Q_OS_WIN`, `_DEBUG`, `OS_MAC_STORE`) become explicit
enumerated inputs.
-/

namespace Core

/-- Filesystem state as seen by the launcher: which paths currently exist
as directories, which exist as files, whether `QDir::mkpath` would succeed
at a path, and whether opening a path for writing would succeed. -/
structure FS where
  isDir : String → Bool
  isFile : String → Bool
  mkpathOk : String → Bool
  canCreate : String → Bool

/-- The launcher fields relevant to path resolution: `_executablePath`,
`_executableName` and `_appDataPath`, each default-initialized empty. -/
structure LauncherState where
  executablePath : String := ""
  executableName : String := ""
  appDataPath : String := ""
deriving DecidableEq

/-- The operating-system families distinguished by the preprocessor
conditionals in `computeWorkingPathBase`. -/
inductive Platform
  | macOS
  | linuxOS
  | winStore
  | windows
deriving DecidableEq

/-- Build configuration: the `_DEBUG` and `OS_MAC_STORE` preprocessor
symbols. -/
structure BuildConfig where
  debug : Bool
  macStore : Bool
deriving DecidableEq

/-- `std::numeric_limits<int>::max()`. -/
def intMax : Nat := 2147483647

/-- The probe file name `dataPath + "/temp" + QString::number(index)`. -/
def tempName (dataPath : String) (index : Nat) : String :=
  dataPath ++ "/temp" ++ toString index

/-- Outcome of the temp-file probe loop: the returned boolean, the file
layer of the filesystem after the loop, and the list of probe files the
loop created (each is also deleted again before returning). -/
structure ProbeOutcome where
  ok : Bool
  files : String → Bool
  created : List String
deriving Inhabited

/-- The `while (true)` retry loop of `Launcher::canWorkInExecutablePath`.
`index` is the counter before the `++index` increment; `fuel` counts the
iterations left before `index` reaches `intMax`, so from the real entry
point (`fuel = intMax`, `index = 0`) the fuel never runs out: the
`index == std::numeric_limits<int>::max()` exit fires first. A successful
`QFile::open(QIODevice::WriteOnly)` creates the file, which is then
closed and removed. -/
def probeLoopAux (canCreate : String → Bool) (dataPath : String)
    (files : String → Bool) : Nat → Nat → ProbeOutcome
  | 0, _ => ⟨false, files, []⟩
  | fuel + 1, index =>
    let idx := index + 1
    let temp := tempName dataPath idx
    if canCreate temp then
      let afterCreate : String → Bool := fun s => if s = temp then true else files s
      let afterRemove : String → Bool := fun s => if s = temp then false else afterCreate s
      ⟨true, afterRemove, [temp]⟩
    else if !files temp then ⟨false, files, []⟩
    else if idx = intMax then ⟨false, files, []⟩
    else probeLoopAux canCreate dataPath files fuel idx

/-- Result of `Launcher::canWorkInExecutablePath`: the boolean answer, the
filesystem afterwards, and the probe files transiently created. -/
structure CanWorkResult where
  ok : Bool
  fs : FS
  created : List String

/-- `Launcher::canWorkInExecutablePath`: ensure `<executablePath>data`
exists (creating it with `mkpath` if needed), take the `salt` sentinel
fast path, else run the numbered temp-file probe loop. -/
def canWorkInExecutablePath (executablePath : String) (fs : FS) :
    CanWorkResult :=
  let dataPath := executablePath ++ "data"
  if !fs.isDir dataPath && !fs.mkpathOk dataPath then
    ⟨false, fs, []⟩
  else
    let fs1 : FS :=
      if fs.isDir dataPath then fs
      else { fs with isDir := fun s => s = dataPath || fs.isDir s }
    if fs1.isFile (dataPath ++ "/salt") then
      ⟨true, fs1, []⟩
    else
      let r := probeLoopAux fs1.canCreate dataPath fs1.isFile intMax 0
      ⟨r.ok, { fs1 with isFile := r.files }, r.created⟩

/-- `Launcher::checkPortablePath`: the marker directory
`_executablePath + "WalletForcePortable"`; if it exists, its path with a
trailing separator, else the empty string. -/
def checkPortablePath (executablePath : String) (fs : FS) : String :=
  let portable := executablePath ++ "WalletForcePortable"
  if fs.isDir portable then portable ++ "/" else ""

/-- `Launcher::computeWorkingPathBase`, with the preprocessor branches
reified over `Platform` and `BuildConfig`. Returns the chosen base and
the filesystem afterwards (the Windows branch may create the `data`
directory through the probe). -/
def computeWorkingPathBase (p : Platform) (cfg : BuildConfig)
    (st : LauncherState) (fs : FS) : String × FS :=
  let path := checkPortablePath st.executablePath fs
  if path = "" then
    match p with
    | .macOS | .linuxOS =>
      if cfg.debug && !cfg.macStore then (st.executablePath, fs)
      else (st.appDataPath, fs)
    | .winStore =>
      if cfg.debug then (st.executablePath, fs) else (st.appDataPath, fs)
    | .windows =>
      let r := canWorkInExecutablePath st.executablePath fs
      if r.ok then (st.executablePath, r.fs) else (st.appDataPath, r.fs)
  else (path, fs)

/-- `Launcher::initWorkingPath`: the working path is the resolved base
with `"data/"` appended. -/
def initWorkingPath (p : Platform) (cfg : BuildConfig)
    (st : LauncherState) (fs : FS) : String × FS :=
  let r := computeWorkingPathBase p cfg st fs
  (r.1 ++ "data/", r.2)

/-- `QString::endsWith('/')` on our string model. -/
def endsWithSlash (s : String) : Bool :=
  s.data.getLast? = some '/'

/-- Ambient platform facilities used by `Launcher::initExecutablePath`:
`base::Platform::CurrentExecutablePath`, `QFileInfo::isSymLink`,
`QFileInfo::symLinkTarget`, `QFileInfo::exists`, the absolute directory
of a file and its file name. -/
structure ExecEnv where
  currentExecutablePath : String
  isSymLink : String → Bool
  symLinkTarget : String → String
  pathExists : String → Bool
  absoluteDirOf : String → String
  fileNameOf : String → String

/-- `Launcher::initExecutablePath`: resolve the running executable; a
symbolic link is followed exactly one level; if the result does not exist
(or the path is empty), the state is left unchanged. -/
def initExecutablePath (env : ExecEnv) (st : LauncherState) : LauncherState :=
  let path := env.currentExecutablePath
  if path = "" then st
  else
    let info := if env.isSymLink path then env.symLinkTarget path else path
    if !env.pathExists info then st
    else
      let dir := env.absoluteDirOf info
      { st with
        executablePath := if endsWithSlash dir then dir else dir ++ "/"
        executableName := env.fileNameOf info }

/-- `Launcher::initAppDataPath`: normalize the OS app-data location to a
path with a trailing separator. -/
def initAppDataPath (absolutePath : String) (st : LauncherState) :
    LauncherState :=
  { st with
    appDataPath :=
      if endsWithSlash absolutePath then absolutePath
      else absolutePath ++ "/" }

/-- The scan state of `Launcher::processArguments`: `nextUrl` and the
current `_openedUrl` (modelled `none` while unset). Once `nextUrl` is set
by a `"--"` token, every later argument overwrites `_openedUrl`. -/
def processStep (s : Bool × Option String) (argument : String) :
    Bool × Option String :=
  if s.1 then (s.1, some argument)
  else if argument = "--" then (true, s.2)
  else s

/-- `Launcher::processArguments` over the decoded argument list. -/
def processArguments (arguments : List String) : Option String :=
  (arguments.foldl processStep (false, none)).2

/-- `FilteredCommandLineArguments::kForwardArgumentCount`. -/
def kForwardArgumentCount : Int := 1

/-- `std::clamp`. -/
def clampInt (v lo hi : Int) : Int :=
  if v < lo then lo else if hi < v then hi else v

/-- The `FilteredCommandLineArguments` constructor: `_count` is `argc`
clamped to `[0, kForwardArgumentCount]`, and `_arguments` holds the first
`_count` entries of `argv` in order. -/
def filteredCommandLineArguments (argc : Int) (argv : List String) :
    List String :=
  List.take (clampInt argc 0 kForwardArgumentCount).toNat argv

/-- A concrete filesystem for exercising the probe: the `data` directory
already exists and already holds a writable file named `temp1`. -/
def fsWithTemp : FS where
  isDir := fun s => s == "e/data"
  isFile := fun s => s == "e/data/temp1"
  mkpathOk := fun _ => false
  canCreate := fun _ => true

/-- A concrete environment where the executable path is a symbolic link
whose target is itself reported as a symbolic link, so that one-level
resolution is observable. -/
def linkEnv : ExecEnv where
  currentExecutablePath := "/a/link"
  isSymLink := fun _ => true
  symLinkTarget := fun s => if s == "/a/link" then "/b/tgt" else "/c/other"
  pathExists := fun s => s == "/b/tgt"
  absoluteDirOf := fun s => if s == "/b/tgt" then "/b" else "/c"
  fileNameOf := fun s => if s == "/b/tgt" then "tgt" else "other"

/-! ## Helper lemmas -/

lemma append_slash_ne_empty (s : String) : s ++ "/" ≠ "" := by
  intro h
  have h2 := congrArg String.length h
  simp [String.length_append] at h2
  exact absurd h2.2 (by decide)

lemma endsWithSlash_append_slash (s : String) :
    endsWithSlash (s ++ "/") = true := by
  have hdata : (s ++ "/").data = s.data ++ ['/'] := by
    simp [String.data_append]
  simp [endsWithSlash, hdata]

lemma tempName_ne_salt (d : String) (n : Nat) :
    tempName d n ≠ d ++ "/salt" := by
  intro h
  have h2 := congrArg String.data h
  simp [tempName, String.data_append] at h2

/-! ## C1: the portable marker overrides every other rule -/

/-- C1: if the directory `WalletForcePortable` exists directly under the
executable directory, `computeWorkingPathBase` returns that marker
directory's path with a trailing separator, on every platform and build
configuration and in every filesystem state (in particular whether or not
the executable-relative `data` directory is writable). -/
theorem computeWorkingPathBase_portable (p : Platform) (cfg : BuildConfig)
    (st : LauncherState) (fs : FS)
    (h : fs.isDir (st.executablePath ++ "WalletForcePortable") = true) :
    (computeWorkingPathBase p cfg st fs).1
      = st.executablePath ++ "WalletForcePortable" ++ "/" := by
  unfold computeWorkingPathBase checkPortablePath
  simp [h, append_slash_ne_empty]

/-- C1 witness: a Windows release configuration whose `data` directory is
not writable (every create and `mkpath` fails) still yields the portable
marker path. -/
theorem computeWorkingPathBase_portable_witness :
    (computeWorkingPathBase .windows ⟨false, false⟩
        { executablePath := "exe/", executableName := "w", appDataPath := "app/" }
        ⟨fun s => s == "exe/WalletForcePortable", fun _ => false,
          fun _ => false, fun _ => false⟩).1
      = "exe/" ++ "WalletForcePortable" ++ "/" :=
  computeWorkingPathBase_portable _ _ _ _ (by decide)

/-! ## C2: the store variant of a Unix-like OS -/

/-- C2 counterexample: in a Mac App Store (`OS_MAC_STORE`) *debug* build
with no portable marker, `computeWorkingPathBase` returns the app-data
directory, not the executable directory that the claimed debug/release
split would require. -/
theorem computeWorkingPathBase_macStore_debug_ce :
    (computeWorkingPathBase .macOS ⟨true, true⟩
        { executablePath := "exe/", executableName := "w", appDataPath := "app/" }
        ⟨fun _ => false, fun _ => false, fun _ => false, fun _ => false⟩).1
        = "app/"
    ∧ ("app/" : String) ≠ "exe/" := by
  constructor
  · decide
  · decide

/-- C2 amended: on the locked-down/store distribution variant of a
Unix-like OS (`Q_OS_MAC` with `OS_MAC_STORE`), absent a portable marker,
`computeWorkingPathBase` returns the OS app-data directory regardless of
the debug/release build configuration. -/
theorem computeWorkingPathBase_macStore (d : Bool) (st : LauncherState)
    (fs : FS)
    (h : fs.isDir (st.executablePath ++ "WalletForcePortable") = false) :
    (computeWorkingPathBase .macOS ⟨d, true⟩ st fs).1 = st.appDataPath := by
  unfold computeWorkingPathBase checkPortablePath
  simp [h]

/-- C2 amended witness: both debug and release Mac App Store builds pick
the app-data directory. -/
theorem computeWorkingPathBase_macStore_witness :
    (computeWorkingPathBase .macOS ⟨true, true⟩
        { executablePath := "exe/", executableName := "w", appDataPath := "app/" }
        ⟨fun _ => false, fun _ => false, fun _ => false, fun _ => false⟩).1
      = "app/" :=
  computeWorkingPathBase_macStore true _ _ (by decide)

/-! ## C3: shape of the final working path -/

/-- C3 counterexample: on a Linux debug build whose executable-path
resolution failed (so `_executablePath` stayed empty) and with no portable
marker, the resolved base is the empty string, which does not end with a
path separator; the claim's second conjunct fails at this invocation. -/
theorem workingPathBase_empty_exec_ce :
    (computeWorkingPathBase .linuxOS ⟨true, false⟩
        { executablePath := "", executableName := "", appDataPath := "app/" }
        ⟨fun _ => false, fun _ => false, fun _ => false, fun _ => false⟩).1
        = ""
    ∧ endsWithSlash "" = false
    ∧ (initWorkingPath .linuxOS ⟨true, false⟩
        { executablePath := "", executableName := "", appDataPath := "app/" }
        ⟨fun _ => false, fun _ => false, fun _ => false, fun _ => false⟩).1
        = "data/" := by
  refine ⟨by decide, by decide, by decide⟩

/-- C3 amended: the final working path always equals the resolved base
with exactly one `"data/"` segment appended, and the base ends with a
path separator provided the executable and app-data paths do (which
`initExecutablePath` and `initAppDataPath` guarantee whenever
executable-path resolution succeeds); with a failed resolution the
executable-directory base is the empty string. -/
theorem initWorkingPath_base_data (p : Platform) (cfg : BuildConfig)
    (st : LauncherState) (fs : FS)
    (h1 : endsWithSlash st.executablePath = true)
    (h2 : endsWithSlash st.appDataPath = true) :
    (initWorkingPath p cfg st fs).1
        = (computeWorkingPathBase p cfg st fs).1 ++ "data/"
    ∧ endsWithSlash (computeWorkingPathBase p cfg st fs).1 = true := by
  refine ⟨rfl, ?_⟩
  unfold computeWorkingPathBase checkPortablePath
  by_cases hdir : fs.isDir (st.executablePath ++ "WalletForcePortable") = true
  · simp [hdir, append_slash_ne_empty, endsWithSlash_append_slash]
  · simp only [Bool.not_eq_true] at hdir
    cases p <;>
      simp [hdir, h1, h2] <;>
      split <;>
      simp [h1, h2]

/-- C3 amended witness: a Windows invocation with normalized executable
and app-data paths. -/
theorem initWorkingPath_base_data_witness :
    (initWorkingPath .windows ⟨false, false⟩
        { executablePath := "exe/", executableName := "w", appDataPath := "app/" }
        ⟨fun _ => false, fun _ => false, fun _ => false, fun _ => false⟩).1
        = (computeWorkingPathBase .windows ⟨false, false⟩
            { executablePath := "exe/", executableName := "w", appDataPath := "app/" }
            ⟨fun _ => false, fun _ => false, fun _ => false, fun _ => false⟩).1
          ++ "data/"
    ∧ endsWithSlash (computeWorkingPathBase .windows ⟨false, false⟩
        { executablePath := "exe/", executableName := "w", appDataPath := "app/" }
        ⟨fun _ => false, fun _ => false, fun _ => false, fun _ => false⟩).1
        = true :=
  initWorkingPath_base_data _ _ _ _ (by decide) (by decide)

/-! ## C4 and C10: the argument scan -/

lemma foldl_processStep_true (l : List String) (u : Option String) :
    l.foldl processStep (true, u)
      = (true, if l = [] then u else l.getLast?) := by
  induction l generalizing u with
  | nil => rfl
  | cons a t ih =>
    have hstep : processStep (true, u) a = (true, some a) := rfl
    rw [List.foldl_cons, hstep, ih]
    cases t with
    | nil => simp
    | cons b t2 => simp [List.getLast?_cons_cons]

/-- C4: the opened-resource value equals the last argument occurring
strictly after the first `"--"` token, and stays unset (`none`) when no
`"--"` token occurs (then `dropWhile` consumes the whole list and the
`getLast?` of the empty remainder is `none`). -/
theorem processArguments_last_after_delim (arguments : List String) :
    processArguments arguments
      = ((arguments.dropWhile (fun a => a != "--")).drop 1).getLast? := by
  induction arguments with
  | nil => rfl
  | cons a t ih =>
    by_cases ha : a = "--"
    · subst ha
      unfold processArguments
      have hstep : processStep (false, none) "--" = (true, none) := by decide
      rw [List.foldl_cons, hstep, foldl_processStep_true]
      cases t <;> simp [List.dropWhile]
    · unfold processArguments at ih ⊢
      have hstep : processStep (false, none) a = (false, none) := by
        simp [processStep, ha]
      rw [List.foldl_cons, hstep, ih]
      have hne : (a != "--") = true := by simp [bne_iff_ne, ha]
      simp [List.dropWhile, hne]

/-- C10: only the first `"--"` acts as a delimiter; every argument after
it, including a further literal `"--"`, overwrites the opened-resource
value, so whenever the argument list ends in `"--"` after the delimiter
the opened resource is the string `"--"` itself — whatever arguments come
in between. -/
theorem processArguments_overwrites_after_first_delim (ys : List String) :
    processArguments ("app" :: "--" :: (ys ++ ["--"])) = some "--" := by
  unfold processArguments
  have h1 : processStep (false, none) "app" = (false, none) := by decide
  have h2 : processStep (false, none) "--" = (true, none) := by decide
  rw [List.foldl_cons, h1, List.foldl_cons, h2, foldl_processStep_true]
  simp

/-! ## C5: the filtered argument list -/

/-- C5: the filtered argument list has length `argc` clamped into
`[0, 1]` (that is, `min argc 1` for the non-negative counts a process can
receive), is a prefix of the raw argument vector (original order starting
at index 0), and contains the executable-path argument `argv[0]` whenever
`argc ≥ 1`. -/
theorem filteredCommandLineArguments_clamped (argc : Int)
    (argv : List String) (h : argc ≤ (argv.length : Int)) :
    (filteredCommandLineArguments argc argv).length = min argc.toNat 1
    ∧ filteredCommandLineArguments argc argv <+: argv
    ∧ (1 ≤ argc →
        (filteredCommandLineArguments argc argv).head? = argv.head?) := by
  unfold filteredCommandLineArguments clampInt kForwardArgumentCount
  refine ⟨?_, List.take_prefix _ _, ?_⟩
  · rw [List.length_take]
    split_ifs <;> omega
  · intro h1
    have hn : (if argc < 0 then 0 else if 1 < argc then 1 else argc).toNat
        = 1 := by
      split_ifs <;> omega
    rw [hn]
    cases argv with
    | nil => simp at h; omega
    | cons b t => simp

/-- C5 witness: three raw arguments are filtered down to the executable
path alone. -/
theorem filteredCommandLineArguments_clamped_witness :
    (filteredCommandLineArguments 3 ["app", "x", "y"]).length
        = min (3 : Int).toNat 1
    ∧ filteredCommandLineArguments 3 ["app", "x", "y"] <+: ["app", "x", "y"]
    ∧ ((1 : Int) ≤ 3 →
        (filteredCommandLineArguments 3 ["app", "x", "y"]).head?
          = (["app", "x", "y"] : List String).head?) :=
  filteredCommandLineArguments_clamped 3 _ (by decide)

/-! ## C6: the `salt` sentinel fast path -/

/-- C6: whenever the sentinel file `salt` exists inside the
executable-relative `data` directory (and the directory exists or can be
created), the writability check answers `true` immediately and creates no
temporary probe file. -/
theorem canWork_salt_fast_path (executablePath : String) (fs : FS)
    (hdir : fs.isDir (executablePath ++ "data") = true
        ∨ fs.mkpathOk (executablePath ++ "data") = true)
    (hsalt : fs.isFile (executablePath ++ "data" ++ "/salt") = true) :
    (canWorkInExecutablePath executablePath fs).ok = true
    ∧ (canWorkInExecutablePath executablePath fs).created = [] := by
  unfold canWorkInExecutablePath
  rcases hdir with hd | hm
  · simp [hd, hsalt]
  · by_cases hd : fs.isDir (executablePath ++ "data") = true
    · simp [hd, hsalt]
    · simp only [Bool.not_eq_true] at hd
      simp [hd, hm, hsalt]

/-- C6 witness: a state whose `data` directory holds `salt` and where
every write attempt would fail is still accepted, with no probe file
created. -/
theorem canWork_salt_fast_path_witness :
    (canWorkInExecutablePath "exe/"
        ⟨fun s => s == "exe/data", fun s => s == "exe/data/salt",
          fun _ => false, fun _ => false⟩).ok = true
    ∧ (canWorkInExecutablePath "exe/"
        ⟨fun s => s == "exe/data", fun s => s == "exe/data/salt",
          fun _ => false, fun _ => false⟩).created = [] :=
  canWork_salt_fast_path _ _ (Or.inl (by decide)) (by decide)

/-! ## C7: the probe loop is bounded -/

lemma probeLoopAux_exhaust (canCreate files : String → Bool)
    (dataPath : String) :
    ∀ fuel index, fuel + index = intMax →
    (∀ n, index < n → n ≤ intMax →
      canCreate (tempName dataPath n) = false
      ∧ files (tempName dataPath n) = true) →
    (probeLoopAux canCreate dataPath files fuel index).ok = false := by
  intro fuel
  induction fuel with
  | zero => intro index _ _; rfl
  | succ fuel ih =>
    intro index hsum h
    obtain ⟨hc, hf⟩ := h (index + 1) (by omega) (by omega)
    by_cases he : index + 1 = intMax
    · rw [he] at hc hf
      simp [probeLoopAux, hc, hf, he]
    · simp [probeLoopAux, hc, hf, he]
      exact ih (index + 1) (by omega) (fun n h1 h2 => h n (by omega) h2)

/-- C7: the temp-file retry loop always terminates with a definite
answer; in the pathological state where every probe name up to the
maximum representable counter collides (creation fails but the name
exists), the counter runs out and the probe answers `false` instead of
looping forever or faulting. -/
theorem probe_loop_bounded (canCreate files : String → Bool)
    (dataPath : String)
    (h : ∀ n, 1 ≤ n → n ≤ intMax →
      canCreate (tempName dataPath n) = false
      ∧ files (tempName dataPath n) = true) :
    (probeLoopAux canCreate dataPath files intMax 0).ok = false :=
  probeLoopAux_exhaust canCreate files dataPath intMax 0 (by omega)
    (fun n h1 h2 => h n h1 h2)

/-- C7 witness: a directory pre-populated so that every numbered probe
name exists but cannot be opened for writing drives the loop to its
bound, and the probe answers `false`. -/
theorem probe_loop_bounded_witness :
    (probeLoopAux (fun _ => false) "data" (fun _ => true) intMax 0).ok
      = false :=
  probe_loop_bounded _ _ _ (fun _ _ _ => ⟨rfl, rfl⟩)

/-! ## C8: probe state lemmas -/

lemma probeLoopAux_files_read (c f : String → Bool) (d : String) :
    ∀ fuel index s, c s = false →
      (probeLoopAux c d f fuel index).files s = f s := by
  intro fuel
  induction fuel with
  | zero => intro index s _; rfl
  | succ fuel ih =>
    intro index s hcs
    by_cases hc : c (tempName d (index + 1)) = true
    · have hne : s ≠ tempName d (index + 1) := by
        intro hseq
        rw [hseq] at hcs
        rw [hcs] at hc
        exact Bool.false_ne_true hc
      simp [probeLoopAux, hc, hne]
    · simp only [Bool.not_eq_true] at hc
      by_cases hf : f (tempName d (index + 1)) = true
      · by_cases he : index + 1 = intMax
        · rw [he] at hc hf
          simp [probeLoopAux, hc, hf, he]
        · simp only [probeLoopAux, hc, hf, he]
          simp only [Bool.not_true, Bool.false_eq_true, if_false, if_true,
            Bool.true_eq_false, ite_false, ite_true]
          exact ih (index + 1) s hcs
      · simp only [Bool.not_eq_true] at hf
        simp [probeLoopAux, hc, hf]

lemma probeLoopAux_ok_congr (c : String → Bool) (d : String)
    (f g : String → Bool) (h : ∀ s, c s = false → g s = f s) :
    ∀ fuel index,
      (probeLoopAux c d g fuel index).ok
        = (probeLoopAux c d f fuel index).ok := by
  intro fuel
  induction fuel with
  | zero => intro index; rfl
  | succ fuel ih =>
    intro index
    by_cases hc : c (tempName d (index + 1)) = true
    · simp [probeLoopAux, hc]
    · simp only [Bool.not_eq_true] at hc
      have hfg := h _ hc
      by_cases hf : f (tempName d (index + 1)) = true
      · by_cases he : index + 1 = intMax
        · rw [he] at hc hf hfg
          simp [probeLoopAux, hc, hf, he, hfg]
        · simp only [probeLoopAux, hc, hf, he, hfg]
          simp only [Bool.not_true, Bool.false_eq_true, if_false, if_true,
            Bool.true_eq_false, ite_false, ite_true]
          exact ih (index + 1)
      · simp only [Bool.not_eq_true] at hf
        simp [probeLoopAux, hc, hf, hfg]

lemma probeLoopAux_created_short (c f : String → Bool) (d : String) :
    ∀ fuel index,
      (probeLoopAux c d f fuel index).created = []
      ∨ ∃ k, (probeLoopAux c d f fuel index).created = [tempName d k] := by
  intro fuel
  induction fuel with
  | zero => intro index; exact Or.inl rfl
  | succ fuel ih =>
    intro index
    by_cases hc : c (tempName d (index + 1)) = true
    · exact Or.inr ⟨index + 1, by simp [probeLoopAux, hc]⟩
    · simp only [Bool.not_eq_true] at hc
      by_cases hf : f (tempName d (index + 1)) = true
      · by_cases he : index + 1 = intMax
        · rw [he] at hc hf
          exact Or.inl (by simp [probeLoopAux, hc, hf, he])
        · have hstep :
              (probeLoopAux c d f (fuel + 1) index).created
                = (probeLoopAux c d f fuel (index + 1)).created := by
            simp [probeLoopAux, hc, hf, he]
          rw [hstep]
          exact ih (index + 1)
      · simp only [Bool.not_eq_true] at hf
        exact Or.inl (by simp [probeLoopAux, hc, hf])

lemma probeLoopAux_files_off_created (c f : String → Bool) (d : String) :
    ∀ fuel index s, s ∉ (probeLoopAux c d f fuel index).created →
      (probeLoopAux c d f fuel index).files s = f s := by
  intro fuel
  induction fuel with
  | zero => intro index s _; rfl
  | succ fuel ih =>
    intro index s hs
    by_cases hc : c (tempName d (index + 1)) = true
    · have hne : s ≠ tempName d (index + 1) := by
        intro hseq
        apply hs
        simp [probeLoopAux, hc, hseq]
      simp [probeLoopAux, hc, hne]
    · simp only [Bool.not_eq_true] at hc
      by_cases hf : f (tempName d (index + 1)) = true
      · by_cases he : index + 1 = intMax
        · rw [he] at hc hf
          simp [probeLoopAux, hc, hf, he]
        · have hstep :
              probeLoopAux c d f (fuel + 1) index
                = probeLoopAux c d f fuel (index + 1) := by
            simp [probeLoopAux, hc, hf, he]
          rw [hstep] at hs ⊢
          exact ih (index + 1) s hs
      · simp only [Bool.not_eq_true] at hf
        simp [probeLoopAux, hc, hf]

lemma probeLoopAux_files_change (c f : String → Bool) (d : String) :
    ∀ fuel index s,
      (probeLoopAux c d f fuel index).files s = f s
      ∨ (∃ k, s = tempName d k ∧ c s = true ∧ f s = true
          ∧ (probeLoopAux c d f fuel index).files s = false) := by
  intro fuel
  induction fuel with
  | zero => intro index s; exact Or.inl rfl
  | succ fuel ih =>
    intro index s
    by_cases hc : c (tempName d (index + 1)) = true
    · by_cases hseq : s = tempName d (index + 1)
      · by_cases hfs : f s = true
        · refine Or.inr ⟨index + 1, hseq, ?_, hfs, ?_⟩
          · rw [hseq]
            exact hc
          · simp [probeLoopAux, hc, hseq]
        · simp only [Bool.not_eq_true] at hfs
          refine Or.inl ?_
          rw [hfs]
          simp [probeLoopAux, hc, hseq]
      · refine Or.inl ?_
        simp [probeLoopAux, hc, hseq]
    · simp only [Bool.not_eq_true] at hc
      by_cases hf : f (tempName d (index + 1)) = true
      · by_cases he : index + 1 = intMax
        · rw [he] at hc hf
          exact Or.inl (by simp [probeLoopAux, hc, hf, he])
        · have hstep :
              probeLoopAux c d f (fuel + 1) index
                = probeLoopAux c d f fuel (index + 1) := by
            simp [probeLoopAux, hc, hf, he]
          rw [hstep]
          exact ih (index + 1) s
      · simp only [Bool.not_eq_true] at hf
        exact Or.inl (by simp [probeLoopAux, hc, hf])

lemma canWork_ok_stable_of_dir (e : String) (g : FS)
    (hd : g.isDir (e ++ "data") = true) :
    (canWorkInExecutablePath e (canWorkInExecutablePath e g).fs).ok
      = (canWorkInExecutablePath e g).ok := by
  by_cases hs : g.isFile (e ++ "data" ++ "/salt") = true
  · have hr : canWorkInExecutablePath e g = ⟨true, g, []⟩ := by
      simp [canWorkInExecutablePath, hd, hs]
    rw [hr]
    show (canWorkInExecutablePath e g).ok = true
    rw [hr]
  · simp only [Bool.not_eq_true] at hs
    have hr : canWorkInExecutablePath e g
        = ⟨(probeLoopAux g.canCreate (e ++ "data") g.isFile intMax 0).ok,
           { g with isFile :=
              (probeLoopAux g.canCreate (e ++ "data") g.isFile intMax 0).files },
           (probeLoopAux g.canCreate (e ++ "data") g.isFile intMax 0).created⟩ := by
      simp [canWorkInExecutablePath, hd, hs]
    have hnc : (e ++ "data" ++ "/salt")
        ∉ (probeLoopAux g.canCreate (e ++ "data") g.isFile intMax 0).created := by
      rcases probeLoopAux_created_short g.canCreate g.isFile (e ++ "data")
          intMax 0 with h0 | ⟨k, hk⟩
      · simp [h0]
      · rw [hk]
        simp only [List.mem_singleton]
        exact fun hh => tempName_ne_salt (e ++ "data") k hh.symm
    have hsalt2 : (probeLoopAux g.canCreate (e ++ "data") g.isFile
        intMax 0).files (e ++ "data" ++ "/salt") = false :=
      (probeLoopAux_files_off_created g.canCreate g.isFile (e ++ "data")
        intMax 0 _ hnc).trans hs
    rw [hr]
    show (canWorkInExecutablePath e
        { g with isFile :=
            (probeLoopAux g.canCreate (e ++ "data") g.isFile intMax 0).files }).ok
      = (probeLoopAux g.canCreate (e ++ "data") g.isFile intMax 0).ok
    have hr2 : canWorkInExecutablePath e
        { g with isFile :=
            (probeLoopAux g.canCreate (e ++ "data") g.isFile intMax 0).files }
        = ⟨(probeLoopAux g.canCreate (e ++ "data")
              (probeLoopAux g.canCreate (e ++ "data") g.isFile intMax 0).files
              intMax 0).ok,
           { g with isFile :=
              (probeLoopAux g.canCreate (e ++ "data")
                (probeLoopAux g.canCreate (e ++ "data") g.isFile intMax 0).files
                intMax 0).files },
           (probeLoopAux g.canCreate (e ++ "data")
              (probeLoopAux g.canCreate (e ++ "data") g.isFile intMax 0).files
              intMax 0).created⟩ := by
      simp [canWorkInExecutablePath, hd, hsalt2]
    rw [hr2]
    exact probeLoopAux_ok_congr g.canCreate (e ++ "data") g.isFile
      (probeLoopAux g.canCreate (e ++ "data") g.isFile intMax 0).files
      (fun s hcs =>
        probeLoopAux_files_read g.canCreate g.isFile (e ++ "data") intMax 0 s hcs)
      intMax 0

lemma canWork_ok_stable (e : String) (g : FS) :
    (canWorkInExecutablePath e (canWorkInExecutablePath e g).fs).ok
      = (canWorkInExecutablePath e g).ok := by
  by_cases hd : g.isDir (e ++ "data") = true
  · exact canWork_ok_stable_of_dir e g hd
  · simp only [Bool.not_eq_true] at hd
    by_cases hm : g.mkpathOk (e ++ "data") = true
    · have hstep : canWorkInExecutablePath e g = canWorkInExecutablePath e
          { g with isDir := fun s => s = (e ++ "data") || g.isDir s } := by
        simp [canWorkInExecutablePath, hd, hm]
      rw [hstep]
      exact canWork_ok_stable_of_dir e _ (by simp)
    · simp only [Bool.not_eq_true] at hm
      have hr : canWorkInExecutablePath e g = ⟨false, g, []⟩ := by
        simp [canWorkInExecutablePath, hd, hm]
      rw [hr]
      show (canWorkInExecutablePath e g).ok = false
      rw [hr]

lemma canWork_isDir_stable (e : String) (g : FS) (s : String)
    (hsne : s ≠ e ++ "data") :
    (canWorkInExecutablePath e g).fs.isDir s = g.isDir s := by
  unfold canWorkInExecutablePath
  by_cases hd : g.isDir (e ++ "data") = true
  · simp only [hd, Bool.not_true, Bool.false_and, Bool.false_eq_true,
      if_false, if_true, ite_true, ite_false]
    split <;> rfl
  · simp only [Bool.not_eq_true] at hd
    by_cases hm : g.mkpathOk (e ++ "data") = true
    · simp only [hd, hm, Bool.not_false, Bool.not_true, Bool.and_false,
        Bool.false_eq_true, if_false, ite_true, ite_false]
      split <;> simp [hsne]
    · simp only [Bool.not_eq_true] at hm
      simp [hd, hm]

lemma canWork_isFile_stable_of_dir (e : String) (g : FS)
    (hd : g.isDir (e ++ "data") = true) :
    ∃ t, ∀ s, s ≠ t →
      (canWorkInExecutablePath e g).fs.isFile s = g.isFile s := by
  by_cases hs : g.isFile (e ++ "data" ++ "/salt") = true
  · exact ⟨"", fun s _ => by simp [canWorkInExecutablePath, hd, hs]⟩
  · simp only [Bool.not_eq_true] at hs
    rcases probeLoopAux_created_short g.canCreate g.isFile (e ++ "data")
        intMax 0 with h0 | ⟨k, hk⟩
    · refine ⟨"", fun s _ => ?_⟩
      have hoff := probeLoopAux_files_off_created g.canCreate g.isFile
        (e ++ "data") intMax 0 s (by simp [h0])
      simp [canWorkInExecutablePath, hd, hs, hoff]
    · refine ⟨tempName (e ++ "data") k, fun s hsne => ?_⟩
      have hoff := probeLoopAux_files_off_created g.canCreate g.isFile
        (e ++ "data") intMax 0 s (by rw [hk]; simp [hsne])
      simp [canWorkInExecutablePath, hd, hs, hoff]

lemma canWork_isFile_stable (e : String) (g : FS) :
    ∃ t, ∀ s, s ≠ t →
      (canWorkInExecutablePath e g).fs.isFile s = g.isFile s := by
  by_cases hd : g.isDir (e ++ "data") = true
  · exact canWork_isFile_stable_of_dir e g hd
  · simp only [Bool.not_eq_true] at hd
    by_cases hm : g.mkpathOk (e ++ "data") = true
    · have hstep : canWorkInExecutablePath e g = canWorkInExecutablePath e
          { g with isDir := fun s => s = (e ++ "data") || g.isDir s } := by
        simp [canWorkInExecutablePath, hd, hm]
      rw [hstep]
      exact canWork_isFile_stable_of_dir e _ (by simp)
    · simp only [Bool.not_eq_true] at hm
      exact ⟨"", fun s _ => by simp [canWorkInExecutablePath, hd, hm]⟩

lemma canWork_isFile_change_of_dir (e : String) (g : FS)
    (hd : g.isDir (e ++ "data") = true) :
    ∀ s, (canWorkInExecutablePath e g).fs.isFile s = g.isFile s
      ∨ (∃ k, s = tempName (e ++ "data") k ∧ g.canCreate s = true
          ∧ g.isFile s = true
          ∧ (canWorkInExecutablePath e g).fs.isFile s = false) := by
  intro s
  by_cases hs : g.isFile (e ++ "data" ++ "/salt") = true
  · exact Or.inl (by simp [canWorkInExecutablePath, hd, hs])
  · simp only [Bool.not_eq_true] at hs
    have hr : (canWorkInExecutablePath e g).fs.isFile s
        = (probeLoopAux g.canCreate (e ++ "data") g.isFile intMax 0).files s := by
      simp [canWorkInExecutablePath, hd, hs]
    rcases probeLoopAux_files_change g.canCreate g.isFile (e ++ "data")
        intMax 0 s with hunch | ⟨k, hk, hck, hfk, hpost⟩
    · exact Or.inl (hr.trans hunch)
    · exact Or.inr ⟨k, hk, hck, hfk, hr.trans hpost⟩

lemma canWork_isFile_change (e : String) (g : FS) :
    ∀ s, (canWorkInExecutablePath e g).fs.isFile s = g.isFile s
      ∨ (∃ k, s = tempName (e ++ "data") k ∧ g.canCreate s = true
          ∧ g.isFile s = true
          ∧ (canWorkInExecutablePath e g).fs.isFile s = false) := by
  by_cases hd : g.isDir (e ++ "data") = true
  · exact canWork_isFile_change_of_dir e g hd
  · simp only [Bool.not_eq_true] at hd
    by_cases hm : g.mkpathOk (e ++ "data") = true
    · have hstep : canWorkInExecutablePath e g = canWorkInExecutablePath e
          { g with isDir := fun s => s = (e ++ "data") || g.isDir s } := by
        simp [canWorkInExecutablePath, hd, hm]
      intro s
      rw [hstep]
      exact canWork_isFile_change_of_dir e
        { g with isDir := fun s => s = (e ++ "data") || g.isDir s }
        (by simp) s
    · simp only [Bool.not_eq_true] at hm
      intro s
      exact Or.inl (by simp [canWorkInExecutablePath, hd, hm])

/-- C8 counterexample: when the `data` directory already exists and
already holds a writable file named `temp1`, the probe opens that
pre-existing file, succeeds, and then deletes it: the directory listing
afterwards differs from the one before even though the directory itself
was not created by the call, refuting the claim that the listing differs
only by the creation of the directory. -/
theorem canWork_deletes_preexisting_temp_ce :
    fsWithTemp.isFile "e/data/temp1" = true
    ∧ (canWorkInExecutablePath "e/" fsWithTemp).fs.isFile "e/data/temp1"
        = false
    ∧ fsWithTemp.isDir "e/data" = true
    ∧ (canWorkInExecutablePath "e/" fsWithTemp).ok = true := by
  refine ⟨by decide, by decide, by decide, by decide⟩

/-- C8 amended: `canWriteTo` is idempotent in its boolean result (running
it again on the filesystem the first call left behind yields the same
answer), and the probe leaves no residual temporary files: afterwards the
directory layer differs from before at most at the `data` directory
itself; the file layer differs at most at one single name; and every name
whose file-layer entry changed is a numbered probe name that existed as a
file before the call, was successfully opened, and is absent afterwards —
a deletion of a pre-existing probe file, never a newly left-behind one.
Consequently, when no probe name existed beforehand as a file, the file
layer is unchanged. -/
theorem canWork_idempotent_result (e : String) (fs : FS) :
    (canWorkInExecutablePath e (canWorkInExecutablePath e fs).fs).ok
        = (canWorkInExecutablePath e fs).ok
    ∧ (∀ s, s ≠ e ++ "data" →
        (canWorkInExecutablePath e fs).fs.isDir s = fs.isDir s)
    ∧ (∃ t, ∀ s, s ≠ t →
        (canWorkInExecutablePath e fs).fs.isFile s = fs.isFile s)
    ∧ (∀ s,
        (canWorkInExecutablePath e fs).fs.isFile s = fs.isFile s
        ∨ (∃ k, s = tempName (e ++ "data") k ∧ fs.canCreate s = true
            ∧ fs.isFile s = true
            ∧ (canWorkInExecutablePath e fs).fs.isFile s = false)) :=
  ⟨canWork_ok_stable e fs,
   fun s hsne => canWork_isDir_stable e fs s hsne,
   canWork_isFile_stable e fs,
   canWork_isFile_change e fs⟩

/-! ## C9: one-level symlink resolution with graceful degradation -/

/-- C9: `initExecutablePath` follows a symbolic link exactly one level —
the directory and file name come from the immediate target, even when the
target is itself a symbolic link — and when the resolved result does not
exist, the executable path and name are left empty and the function
returns normally. -/
theorem initExecutablePath_one_level (env : ExecEnv) (ad : String)
    (hlink : env.isSymLink env.currentExecutablePath = true) :
    (env.pathExists (env.symLinkTarget env.currentExecutablePath) = false →
      initExecutablePath env ⟨"", "", ad⟩ = ⟨"", "", ad⟩)
    ∧ (env.pathExists (env.symLinkTarget env.currentExecutablePath) = true →
        env.currentExecutablePath ≠ "" →
        (initExecutablePath env ⟨"", "", ad⟩).executablePath
            = (if endsWithSlash
                  (env.absoluteDirOf (env.symLinkTarget env.currentExecutablePath))
               then env.absoluteDirOf (env.symLinkTarget env.currentExecutablePath)
               else env.absoluteDirOf (env.symLinkTarget env.currentExecutablePath)
                  ++ "/")
        ∧ (initExecutablePath env ⟨"", "", ad⟩).executableName
            = env.fileNameOf (env.symLinkTarget env.currentExecutablePath)) := by
  constructor
  · intro hex
    unfold initExecutablePath
    by_cases hp : env.currentExecutablePath = ""
    · simp [hp]
    · simp [hp, hlink, hex]
  · intro hex hp
    unfold initExecutablePath
    simp [hp, hlink, hex]

/-- C9 witness: `linkEnv` reports even the symlink target `/b/tgt` as a
symlink, yet resolution stops after one level: the executable directory
comes from `/b/tgt` itself (so it is `/b/`), not from a second-level
target. -/
theorem initExecutablePath_one_level_witness :
    (linkEnv.pathExists (linkEnv.symLinkTarget linkEnv.currentExecutablePath)
          = false →
      initExecutablePath linkEnv ⟨"", "", ""⟩ = ⟨"", "", ""⟩)
    ∧ (linkEnv.pathExists (linkEnv.symLinkTarget linkEnv.currentExecutablePath)
          = true →
        linkEnv.currentExecutablePath ≠ "" →
        (initExecutablePath linkEnv ⟨"", "", ""⟩).executablePath
            = (if endsWithSlash
                  (linkEnv.absoluteDirOf
                    (linkEnv.symLinkTarget linkEnv.currentExecutablePath))
               then linkEnv.absoluteDirOf
                  (linkEnv.symLinkTarget linkEnv.currentExecutablePath)
               else linkEnv.absoluteDirOf
                  (linkEnv.symLinkTarget linkEnv.currentExecutablePath) ++ "/")
        ∧ (initExecutablePath linkEnv ⟨"", "", ""⟩).executableName
            = linkEnv.fileNameOf
                (linkEnv.symLinkTarget linkEnv.currentExecutablePath)) :=
  initExecutablePath_one_level linkEnv "" (by decide)

end Core
